import Mathlib

/-!
Verification of the `wlra` repository (weighted low rank approximation).

This file shallowly embeds the three source files of the repository:

* `wlra/wlra.py` — `lra`, `wlra`, `pois_llik`, `pois_lra`;
* `wlra/pois.py` — `PoissonFA.forward`, `PoissonFA.fit`.

Matrices are embedded as total functions `ℕ → ℕ → ℝ`; the dimensions `n`, `p`
are passed explicitly wherever the code takes a mean or a maximum over the
array. The external truncated-SVD collaborator (`sklearn.decomposition.PCA._fit`)
is a parameter of type `Svd`. Python `RuntimeError` / `NameError` are embedded
as the inductive `PyErr`, and the iteration loops as fuel recursion on the
iteration counts (`max_iters`, `max_outer_iters`), returning `Except PyErr _`.
Floating point is modelled by exact real arithmetic; `np.exp` is `Real.exp`,
`sp.gammaln` is `Real.log ∘ Real.Gamma` (they agree on the arguments `y + 1`,
`y ≥ 0` used by the code), and `np.isclose(a, b, atol=atol)` is
`|a - b| ≤ atol + |b| / 100000` (numpy's default `rtol = 1e-5`).
-/

open scoped Classical

/-- Dense matrices, embedded as total functions; entries outside the `n × p`
extent are never consulted by the embedded operations. -/
abbrev Mat : Type := ℕ → ℕ → ℝ

/-- Embedding of `a.mean()` for an `n × p` numpy array. -/
noncomputable def matMean (n p : ℕ) (a : Mat) : ℝ :=
  (∑ i ∈ Finset.range n, ∑ j ∈ Finset.range p, a i j) / (n * p)

/-- The entries of an `n × p` matrix, listed row-major. -/
def matEntries (n p : ℕ) (a : Mat) : List ℝ :=
  (List.range n).flatMap fun i => (List.range p).map (a i)

/-- Embedding of `a.max()` for a nonempty `n × p` numpy array (the seed
`a 0 0` is itself an entry whenever `0 < n` and `0 < p`). -/
noncomputable def matMax (n p : ℕ) (a : Mat) : ℝ :=
  (matEntries n p a).foldl max (a 0 0)

/-- Embedding of `np.isclose(a, b, atol=atol)` with numpy's default relative
tolerance `rtol = 1e-5`: `|a - b| <= atol + rtol * |b|`. -/
def isclose (a b atol : ℝ) : Prop := |a - b| ≤ atol + |b| / 100000

/-- Python exceptions raised by the embedded code: `RuntimeError(msg)` from
`wlra`, and `NameError` for an unresolvable global name in `pois.py`. -/
inductive PyErr : Type where
  | runtimeError (msg : String) : PyErr
  | nameError (name : String) : PyErr
deriving DecidableEq

/-- Result of the external truncated-SVD collaborator
(`skd.PCA(n_components=rank)._fit(x)` returning `u, d, vt`): `r` components,
`u : n × r`, `d : r`, `vt : r × p`, all as total functions. -/
structure SvdResult : Type where
  r : ℕ
  u : Mat
  d : ℕ → ℝ
  vt : Mat

/-- The external truncated-SVD collaborator: takes the matrix and the rank. -/
abbrev Svd : Type := Mat → ℕ → SvdResult

/-- Embedding of `lra(x, rank)` (wlra.py lines 17-35): run the external SVD,
truncate `u`, `d`, `vt` to the first `rank` components when the collaborator
returned more (`d.shape[0] > rank`), then reconstruct by
`np.einsum('ij,j,jk->ik', u, d, vt)`. Truncating the function-represented
arrays amounts to setting the component count to `rank`. -/
noncomputable def lra (svd : Svd) (x : Mat) (rank : ℕ) : Mat :=
  let res := svd x rank
  let res' := if rank < res.r then SvdResult.mk rank res.u res.d res.vt else res
  fun i k => ∑ j ∈ Finset.range res'.r, res'.u i j * res'.d j * res'.vt j k

/-- Embedding of `w = np.array(w, dtype='float'); w /= w.max()` (wlra.py lines
57-58): a fresh array is built from the caller's `w` (the caller's array is
not mutated) with every entry divided by the maximum. -/
noncomputable def wlra_wnorm (n p : ℕ) (w : Mat) : Mat :=
  fun i j => w i j / matMax n p w

/-- Embedding of `update = (w * np.square(x - z1)).mean()` (wlra.py line 72). -/
noncomputable def wlra_update (n p : ℕ) (x w z1 : Mat) : ℝ :=
  matMean n p fun i j => w i j * (x i j - z1 i j) ^ 2

/-- Embedding of the EM loop of `wlra` (wlra.py lines 70-82), by fuel
recursion on the remaining iterations of `for i in range(max_iters)`. State:
current estimate `z` and objective `obj`. Exhausting the loop raises
`RuntimeError('failed to converge')`; an objective increase raises
`RuntimeError('objective increased')`; `np.isclose(update, obj, atol=atol)`
returns `z1`. -/
noncomputable def wlra_go (svd : Svd) (n p : ℕ) (x w : Mat) (rank : ℕ)
    (atol : ℝ) : ℕ → Mat → ℝ → Except PyErr Mat
  | 0, _, _ => .error (.runtimeError "failed to converge")
  | fuel + 1, z, obj =>
    let z1 := lra svd (fun i j => w i j * x i j + (1 - w i j) * z i j) rank
    let update := wlra_update n p x w z1
    if obj < update then .error (.runtimeError "objective increased")
    else if isclose update obj atol then .ok z1
    else wlra_go svd n p x w rank atol fuel z1 update

/-- The list of objective values `update` computed by the EM loop of `wlra`,
in order, mirroring `wlra_go` branch for branch. -/
noncomputable def wlra_objs (svd : Svd) (n p : ℕ) (x w : Mat) (rank : ℕ)
    (atol : ℝ) : ℕ → Mat → ℝ → List ℝ
  | 0, _, _ => []
  | fuel + 1, z, obj =>
    let z1 := lra svd (fun i j => w i j * x i j + (1 - w i j) * z i j) rank
    let update := wlra_update n p x w z1
    if obj < update then [update]
    else if isclose update obj atol then [update]
    else update :: wlra_objs svd n p x w rank atol fuel z1 update

/-- Embedding of `wlra(x, w, rank, max_iters, atol, verbose)` (wlra.py lines
37-82): normalize the weights by their maximum, initialize `z` to zeros and
the objective to `(w * np.square(x)).mean()`, then run the EM loop.
`verbose` printing never affects control flow and is omitted. -/
noncomputable def wlra (svd : Svd) (n p : ℕ) (x w : Mat) (rank max_iters : ℕ)
    (atol : ℝ) : Except PyErr Mat :=
  let wn := wlra_wnorm n p w
  wlra_go svd n p x wn rank atol max_iters (fun _ _ => 0)
    (matMean n p fun i j => wn i j * x i j ^ 2)

/-- Model of `sp.gammaln` (scipy's log-gamma): for the arguments `y + 1` with
`y ≥ 0` arising in this code it equals `log (Gamma x)`. -/
noncomputable def lngamma (x : ℝ) : ℝ := Real.log (Real.Gamma x)

/-- Embedding of `pois_llik(y, eta)` (wlra.py lines 84-96):
`y * eta - np.exp(eta) - sp.gammaln(y + 1)`, with the plain exponential. -/
noncomputable def pois_llik (y eta : ℝ) : ℝ :=
  y * eta - Real.exp eta - lngamma (y + 1)

/-- Modelled from the spec (§4.3), for comparison with the code: the
numerically safe exponential, substituting `eta` itself for `exp(eta)`
whenever `eta > 100`. No such primitive exists in the source. -/
noncomputable def safe_exp_spec (eta : ℝ) : ℝ :=
  if 100 < eta then eta else Real.exp eta

/-- Modelled from the spec (§4.3), for comparison with the code: the Poisson
log-likelihood evaluated with the safe exponential `safe_exp_spec`. -/
noncomputable def pois_llik_spec (y eta : ℝ) : ℝ :=
  y * eta - safe_exp_spec eta - lngamma (y + 1)

/-- Embedding of `lam = np.exp(eta)` (wlra.py line 126): the Poisson rate
used in the outer loop of `pois_lra`, computed with the plain exponential. -/
noncomputable def pois_lra_lam (eta : Mat) : Mat :=
  fun i j => Real.exp (eta i j)

/-- Embedding of `target = eta + x / lam - 1` (wlra.py line 128). -/
noncomputable def pois_lra_target (x eta : Mat) : Mat :=
  fun i j => eta i j + x i j / pois_lra_lam eta i j - 1

/-- The mean Poisson log-likelihood `pois_llik(x, eta).mean()` used for the
objective of `pois_lra` (wlra.py lines 122 and 140). -/
noncomputable def pois_llik_mean (n p : ℕ) (x eta : Mat) : ℝ :=
  matMean n p fun i j => pois_llik (x i j) (eta i j)

/-- Embedding of the outer loop of `pois_lra` (wlra.py lines 125-150) for a
plain (unmasked) input `x`, where `np.ma.is_masked(x)` is false and the mask
branch at lines 132-138 is skipped. Each iteration computes `lam`, uses it as
the weights, forms the linearized target, calls `wlra` (propagating its
`RuntimeError`s), and then: on `update < obj` does `pass` (state unchanged),
on `np.isclose(update, obj, atol=atol)` returns `eta1`, otherwise advances
the state. Exhausting the loop returns the current `eta`. -/
noncomputable def pois_lra_go (svd : Svd) (n p : ℕ) (x : Mat)
    (rank max_iters : ℕ) (atol : ℝ) : ℕ → Mat → ℝ → Except PyErr Mat
  | 0, eta, _ => .ok eta
  | fuel + 1, eta, obj =>
    match wlra svd n p (pois_lra_target x eta) (pois_lra_lam eta) rank
        max_iters atol with
    | .error e => .error e
    | .ok eta1 =>
      let update := pois_llik_mean n p x eta1
      if update < obj then pois_lra_go svd n p x rank max_iters atol fuel eta obj
      else if isclose update obj atol then .ok eta1
      else pois_lra_go svd n p x rank max_iters atol fuel eta1 update

/-- Embedding of `eta = np.ones(x.shape) * x.mean()` (wlra.py line 121): the
default initial estimate, a constant matrix at the mean of `x`. -/
noncomputable def pois_lra_init (n p : ℕ) (x : Mat) : Mat :=
  fun _ _ => matMean n p x

/-- Modelled from the spec (§4.4 step 1), for comparison with the code: a
constant initial matrix at `log(mean(X))`. -/
noncomputable def pois_lra_init_spec (n p : ℕ) (x : Mat) : Mat :=
  fun _ _ => Real.log (matMean n p x)

/-- Embedding of `pois_lra(x, rank, init, max_outer_iters, max_iters, atol,
verbose)` (wlra.py lines 98-150): start from `init` if supplied, else from
the constant matrix at `x.mean()`; set the objective to
`pois_llik(x, eta).mean()`; run the outer loop. -/
noncomputable def pois_lra (svd : Svd) (n p : ℕ) (x : Mat) (rank : ℕ)
    (init : Option Mat) (max_outer_iters max_iters : ℕ) (atol : ℝ) :
    Except PyErr Mat :=
  let eta := match init with | some e => e | none => pois_lra_init n p x
  pois_lra_go svd n p x rank max_iters atol max_outer_iters eta
    (pois_llik_mean n p x eta)

/-- The global names bound at module level in `pois.py` (lines 1-2): only
`np` and `torch` are imported, plus the class `PoissonFA` itself. The name
`sp` used by `PoissonFA.forward` is never bound. -/
def poisModuleNames : List String := ["np", "torch", "PoissonFA"]

/-- Python global-name resolution in the `pois.py` module: a name evaluates
successfully iff it is bound at module level, else a `NameError` for that
name is raised. -/
def resolveGlobal (s : String) : Except PyErr Unit :=
  if s ∈ poisModuleNames then .ok () else .error (.nameError s)

/-- Embedding of `log_lam = torch.matmul(self.l, self.f)` (pois.py line 21)
for factors `l : n × k` and `f : k × p`. -/
noncomputable def PoissonFA.log_lam (k : ℕ) (l f : Mat) : Mat :=
  fun i j => ∑ t ∈ Finset.range k, l i t * f t j

/-- The value the return expression of `PoissonFA.forward` (pois.py line 22)
denotes once every global resolves (with `sp.gammaln` read as log-gamma):
`-torch.mean(x * log_lam - torch.exp(log_lam) + sp.gammaln(x + 1))`. Note
the `+` in front of the log-gamma term, and the plain exponential. -/
noncomputable def PoissonFA.forward_expr (n k p : ℕ) (l f x : Mat) : ℝ :=
  -(matMean n p fun i j =>
    x i j * PoissonFA.log_lam k l f i j
      - Real.exp (PoissonFA.log_lam k l f i j) + lngamma (x i j + 1))

/-- Embedding of `PoissonFA.forward` (pois.py lines 19-22): evaluate the body,
resolving each referenced global name in the `pois.py` module environment.
`torch` resolves; the evaluation of `sp.gammaln(x + 1)` first resolves the
global `sp`, which is unbound, so the call raises `NameError('sp')` before
any value is returned. -/
noncomputable def PoissonFA.forward (n k p : ℕ) (l f x : Mat) :
    Except PyErr ℝ := do
  let _ ← resolveGlobal "torch"
  let _ ← resolveGlobal "torch"
  let _ ← resolveGlobal "sp"
  pure (PoissonFA.forward_expr n k p l f x)

/-- The negative mean Poisson log-likelihood of `x` under `eta`, built from
the repository's own `pois_llik`: this is what the spec says the gradient
path's loss is. -/
noncomputable def negMeanPoisLlik (n p : ℕ) (x eta : Mat) : ℝ :=
  -(matMean n p fun i j => pois_llik (x i j) (eta i j))

/-- Embedding of the epoch loop of `PoissonFA.fit` (pois.py lines 39-49), by
fuel recursion on the remaining epochs. The Adam optimizer is the external
collaborator `step`, acting on the factor pair; `self.obj` starts at
`np.inf`, modelled as `Option ℝ` with `none` for infinity (numpy's
`isclose(loss, inf)` is false). Each epoch evaluates `forward`, whose
exception propagates. -/
noncomputable def PoissonFA.fit_go (step : Mat × Mat → Mat × Mat)
    (n k p : ℕ) (x : Mat) (atol : ℝ) :
    ℕ → Mat × Mat → Option ℝ → Except PyErr (Mat × Mat)
  | 0, lf, _ => .ok lf
  | fuel + 1, lf, obj =>
    match PoissonFA.forward n k p lf.1 lf.2 x with
    | .error e => .error e
    | .ok loss =>
      if match obj with | none => False | some o => isclose loss o atol then
        .ok lf
      else PoissonFA.fit_go step n k p x atol fuel (step lf) (some loss)

/-- Embedding of `PoissonFA.fit(x, max_epochs, atol, ...)` (pois.py lines
24-50): start with `self.obj = np.inf` and the initial factors, run the
epoch loop. -/
noncomputable def PoissonFA.fit (step : Mat × Mat → Mat × Mat) (n k p : ℕ)
    (l f x : Mat) (max_epochs : ℕ) (atol : ℝ) : Except PyErr (Mat × Mat) :=
  PoissonFA.fit_go step n k p x atol max_epochs (l, f) none

/-- A degenerate but contract-abiding instance of the external SVD
collaborator, returning zero components; `lra` built on it reconstructs the
zero matrix. Used to instantiate witnesses. -/
def trivialSvd : Svd := fun _ _ => SvdResult.mk 0 (fun _ _ => 0) (fun _ => 0) (fun _ _ => 0)

/-- An instance of the external SVD collaborator that is exact on `1 × 1`
matrices: one component with `u = [[1]]`, `d = [x 0 0]`, `vt = [[1]]` (a
genuine SVD of `[[x 0 0]]` when `x 0 0 ≥ 0`). Used to instantiate concrete
runs. -/
def svd11 : Svd := fun x _ => SvdResult.mk 1 (fun _ _ => 1) (fun _ => x 0 0) (fun _ _ => 1)

/-- Unfolding equation for one iteration of the EM loop of `wlra`. -/
theorem wlra_go_succ (svd : Svd) (n p : ℕ) (x w : Mat) (rank : ℕ) (atol : ℝ)
    (fuel : ℕ) (z : Mat) (obj : ℝ) :
    wlra_go svd n p x w rank atol (fuel + 1) z obj
      = let z1 := lra svd (fun i j => w i j * x i j + (1 - w i j) * z i j) rank
        let update := wlra_update n p x w z1
        if obj < update then .error (.runtimeError "objective increased")
        else if isclose update obj atol then .ok z1
        else wlra_go svd n p x w rank atol fuel z1 update := rfl

/-- Unfolding equation for the objective trace of the EM loop of `wlra`. -/
theorem wlra_objs_succ (svd : Svd) (n p : ℕ) (x w : Mat) (rank : ℕ) (atol : ℝ)
    (fuel : ℕ) (z : Mat) (obj : ℝ) :
    wlra_objs svd n p x w rank atol (fuel + 1) z obj
      = let z1 := lra svd (fun i j => w i j * x i j + (1 - w i j) * z i j) rank
        let update := wlra_update n p x w z1
        if obj < update then [update]
        else if isclose update obj atol then [update]
        else update :: wlra_objs svd n p x w rank atol fuel z1 update := rfl

/-- Unfolding equation for one iteration of the outer loop of `pois_lra`. -/
theorem pois_lra_go_succ (svd : Svd) (n p : ℕ) (x : Mat)
    (rank max_iters : ℕ) (atol : ℝ) (fuel : ℕ) (eta : Mat) (obj : ℝ) :
    pois_lra_go svd n p x rank max_iters atol (fuel + 1) eta obj
      = match wlra svd n p (pois_lra_target x eta) (pois_lra_lam eta) rank
            max_iters atol with
        | .error e => .error e
        | .ok eta1 =>
          let update := pois_llik_mean n p x eta1
          if update < obj then
            pois_lra_go svd n p x rank max_iters atol fuel eta obj
          else if isclose update obj atol then .ok eta1
          else pois_lra_go svd n p x rank max_iters atol fuel eta1 update := rfl

/-- The seed of a left max-fold bounds the result from below. -/
theorem le_foldl_max (l : List ℝ) (a : ℝ) : a ≤ l.foldl max a := by
  induction l generalizing a with
  | nil => exact le_refl a
  | cons b l ih => exact le_trans (le_max_left a b) (ih (max a b))

/-- Every list element bounds a left max-fold from below. -/
theorem mem_le_foldl_max (l : List ℝ) (a x : ℝ) (hx : x ∈ l) :
    x ≤ l.foldl max a := by
  induction l generalizing a with
  | nil => cases hx
  | cons b l ih =>
    simp only [List.foldl_cons]
    rcases List.mem_cons.mp hx with h | h
    · subst h
      exact le_trans (le_max_right a x) (le_foldl_max l (max a x))
    · exact ih (max a b) h

/-- A left max-fold commutes with multiplication by a nonnegative scalar. -/
theorem foldl_max_map_mul (l : List ℝ) (a c : ℝ) (hc : 0 ≤ c) :
    (l.map fun t => t * c).foldl max (a * c) = l.foldl max a * c := by
  induction l generalizing a with
  | nil => rfl
  | cons b l ih =>
    simp only [List.map_cons, List.foldl_cons]
    rw [← max_mul_of_nonneg a b hc, ih (max a b)]

/-- Scaling every entry of a matrix scales its row-major entry list. -/
theorem matEntries_mul (n p : ℕ) (a : Mat) (c : ℝ) :
    matEntries n p (fun i j => a i j * c) = (matEntries n p a).map fun t => t * c := by
  simp [matEntries, List.map_flatMap, List.map_map, Function.comp_def]

/-- Scaling every entry of a matrix scales its maximum, for a nonnegative
scalar. -/
theorem matMax_mul (n p : ℕ) (a : Mat) (c : ℝ) (hc : 0 ≤ c) :
    matMax n p (fun i j => a i j * c) = matMax n p a * c := by
  unfold matMax
  rw [matEntries_mul n p a c, foldl_max_map_mul _ _ _ hc]

/-- Each in-range entry of a matrix is bounded by the matrix maximum. -/
theorem le_matMax (n p : ℕ) (a : Mat) (i j : ℕ) (hi : i < n) (hj : j < p) :
    a i j ≤ matMax n p a := by
  refine mem_le_foldl_max _ _ _ ?_
  simp only [matEntries, List.mem_flatMap, List.mem_map, List.mem_range]
  exact ⟨i, hi, j, hj, rfl⟩

/-- Helper: closed form for one entry of `lra`, as the reconstruction sum
over the first `min rank r` components of the returned triple. -/
theorem lra_apply (svd : Svd) (x : Mat) (rank i k : ℕ) :
    lra svd x rank i k
      = ∑ j ∈ Finset.range (min rank (svd x rank).r),
          (svd x rank).u i j * (svd x rank).d j * (svd x rank).vt j k := by
  unfold lra
  by_cases h : rank < (svd x rank).r
  · simp only [if_pos h, min_eq_left (le_of_lt h)]
  · simp only [if_neg h, min_eq_right (le_of_not_lt h)]

/-- C10: `lra(M, k)` reconstructs `U · diag(D) · Vᵗ` from the leading
components of the returned singular triple; when the external decomposition
returns more than `k` components, the first `k` columns of `U`, values of
`D`, and rows of `Vᵗ` are used, so in every case entry `(i, k)` is the sum
over the first `min rank r` components of `u i j * d j * vt j k`. -/
theorem lra_reconstructs_truncated_triple (svd : Svd) (x : Mat)
    (rank i k : ℕ) :
    lra svd x rank i k
      = ∑ j ∈ Finset.range (min rank (svd x rank).r),
          (svd x rank).u i j * (svd x rank).d j * (svd x rank).vt j k :=
  lra_apply svd x rank i k

/-- C4: the EM loop of `wlra` (i) raises `RuntimeError('objective
increased')` the moment an iteration's objective exceeds the running one,
(ii) raises `RuntimeError('failed to converge')` when the loop exhausts its
iterations, an error distinct from the non-monotone one, and (iii) on every
normal return the objective sequence (initial objective followed by the
computed updates) is non-increasing. -/
theorem wlra_error_handling_and_monotonicity :
    (∀ (svd : Svd) (n p : ℕ) (x w : Mat) (rank : ℕ) (atol : ℝ) (fuel : ℕ)
        (z : Mat) (obj : ℝ),
        obj < wlra_update n p x w
            (lra svd (fun i j => w i j * x i j + (1 - w i j) * z i j) rank) →
        wlra_go svd n p x w rank atol (fuel + 1) z obj
          = .error (.runtimeError "objective increased"))
    ∧ (∀ (svd : Svd) (n p : ℕ) (x w : Mat) (rank : ℕ) (atol : ℝ)
        (z : Mat) (obj : ℝ),
        wlra_go svd n p x w rank atol 0 z obj
          = .error (.runtimeError "failed to converge"))
    ∧ PyErr.runtimeError "objective increased"
        ≠ PyErr.runtimeError "failed to converge"
    ∧ ∀ (svd : Svd) (n p : ℕ) (x w : Mat) (rank : ℕ) (atol : ℝ) (fuel : ℕ)
        (z z' : Mat) (obj : ℝ),
        wlra_go svd n p x w rank atol fuel z obj = .ok z' →
        List.Chain' (fun a b => b ≤ a)
          (obj :: wlra_objs svd n p x w rank atol fuel z obj) := by
  refine ⟨?_, ?_, ?_, ?_⟩
  · intro svd n p x w rank atol fuel z obj h
    rw [wlra_go_succ]
    simp only [if_pos h]
  · intro svd n p x w rank atol z obj
    rfl
  · simp
  · intro svd n p x w rank atol fuel
    induction fuel with
    | zero =>
      intro z z' obj h
      exact absurd h (by simp [wlra_go])
    | succ fuel ih =>
      intro z z' obj h
      rw [wlra_go_succ] at h
      rw [wlra_objs_succ]
      simp only at h ⊢
      by_cases h1 : obj < wlra_update n p x w
          (lra svd (fun i j => w i j * x i j + (1 - w i j) * z i j) rank)
      · rw [if_pos h1] at h
        cases h
      · rw [if_neg h1] at h
        rw [if_neg h1]
        by_cases h2 : isclose (wlra_update n p x w
            (lra svd (fun i j => w i j * x i j + (1 - w i j) * z i j) rank))
            obj atol
        · rw [if_pos h2]
          exact List.chain'_cons.mpr ⟨le_of_not_lt h1, List.chain'_singleton _⟩
        · rw [if_neg h2] at h
          rw [if_neg h2]
          exact List.chain'_cons.mpr ⟨le_of_not_lt h1, ih _ z' _ h⟩

/-- C4 witness: at a concrete `1 × 1` input with running objective `-1` the
loop fails with `RuntimeError('objective increased')`, and a concrete normal
return (zero data, converging in one iteration) has a non-increasing
objective sequence. -/
theorem wlra_error_handling_and_monotonicity_witness :
    wlra_go svd11 1 1 (fun _ _ => 1) (fun _ _ => 1) 1 (1/1000) 1 (fun _ _ => 0) (-1)
        = .error (.runtimeError "objective increased")
    ∧ List.Chain' (fun a b => b ≤ a)
        (0 :: wlra_objs trivialSvd 1 1 (fun _ _ => 0) (fun _ _ => 1) 1 (1/1000) 1
            (fun _ _ => 0) 0) := by
  constructor
  · refine wlra_error_handling_and_monotonicity.1 svd11 1 1 (fun _ _ => 1)
      (fun _ _ => 1) 1 (1/1000) 0 (fun _ _ => 0) (-1) ?_
    have hz1 : lra svd11 (fun i j => (fun _ _ => (1:ℝ)) i j * (fun _ _ => (1:ℝ)) i j
        + (1 - (fun _ _ => (1:ℝ)) i j) * (fun _ _ => (0:ℝ)) i j) 1 = fun _ _ => 1 := by
      funext i k
      rw [lra_apply]
      simp [svd11]
    rw [hz1]
    have hupd : wlra_update 1 1 (fun _ _ => (1:ℝ)) (fun _ _ => 1) (fun _ _ => 1) = 0 := by
      simp [wlra_update, matMean]
    rw [hupd]
    norm_num
  · have hz1 : lra trivialSvd (fun i j => (fun _ _ => (1:ℝ)) i j * (fun _ _ => (0:ℝ)) i j
        + (1 - (fun _ _ => (1:ℝ)) i j) * (fun _ _ => (0:ℝ)) i j) 1 = fun _ _ => (0:ℝ) := by
      funext i k
      rw [lra_apply]
      simp [trivialSvd]
    have hupd : wlra_update 1 1 (fun _ _ => (0:ℝ)) (fun _ _ => 1) (fun _ _ => 0) = 0 := by
      simp [wlra_update, matMean]
    have hclose : isclose 0 0 (1/1000) := by
      simp [isclose]
    have h : wlra_go trivialSvd 1 1 (fun _ _ => 0) (fun _ _ => 1) 1 (1/1000) 1
        (fun _ _ => 0) 0 = .ok (fun _ _ => 0) := by
      rw [wlra_go_succ, hz1]
      simp only [hupd, lt_irrefl, if_false, if_pos hclose]
    exact wlra_error_handling_and_monotonicity.2.2.2 trivialSvd 1 1 (fun _ _ => 0)
      (fun _ _ => 1) 1 (1/1000) 1 (fun _ _ => 0) (fun _ _ => 0) 0 h

/-- C9: `wlra` rescales the weights into a fresh local array divided by
their maximum (mirroring the copy `np.array(w)` before the in-place `/=`,
so the caller's array is untouched): when the input weights are nonnegative
with a positive maximum, every normalized weight lies in `[0, 1]`, the
normalized maximum is exactly `1`, and the EM loop runs on the normalized
copy `wlra_wnorm n p w` while the caller's `w` is only read. -/
theorem wlra_normalizes_weights_on_a_copy (n p : ℕ) (w : Mat)
    (hw : ∀ i < n, ∀ j < p, 0 ≤ w i j) (hmax : 0 < matMax n p w) :
    (∀ i < n, ∀ j < p, 0 ≤ wlra_wnorm n p w i j ∧ wlra_wnorm n p w i j ≤ 1)
    ∧ matMax n p (wlra_wnorm n p w) = 1
    ∧ ∀ (svd : Svd) (x : Mat) (rank max_iters : ℕ) (atol : ℝ),
        wlra svd n p x w rank max_iters atol
          = wlra_go svd n p x (wlra_wnorm n p w) rank atol max_iters
              (fun _ _ => 0)
              (matMean n p fun i j => wlra_wnorm n p w i j * x i j ^ 2) := by
  refine ⟨?_, ?_, ?_⟩
  · intro i hi j hj
    exact ⟨div_nonneg (hw i hi j hj) (le_of_lt hmax),
      div_le_one_of_le₀ (le_matMax n p w i j hi hj) (le_of_lt hmax)⟩
  · have hrw : wlra_wnorm n p w = fun i j => w i j * (matMax n p w)⁻¹ := by
      funext i j
      rw [wlra_wnorm, div_eq_mul_inv]
    rw [hrw, matMax_mul n p w _ (inv_nonneg.mpr (le_of_lt hmax)),
      mul_inv_cancel₀ (ne_of_gt hmax)]
  · intro svd x rank max_iters atol
    rfl

/-- C9 witness: the constant weight matrix `2` on a `1 × 1` array normalizes
to weights in `[0, 1]` with maximum `1`. -/
theorem wlra_normalizes_weights_on_a_copy_witness :
    ((0:ℝ) ≤ wlra_wnorm 1 1 (fun _ _ => 2) 0 0 ∧ wlra_wnorm 1 1 (fun _ _ => 2) 0 0 ≤ 1)
    ∧ matMax 1 1 (wlra_wnorm 1 1 (fun _ _ => 2)) = 1 := by
  have h := wlra_normalizes_weights_on_a_copy 1 1 (fun _ _ => 2)
    (fun i _ j _ => by norm_num)
    (by norm_num [matMax, matEntries, show List.range 1 = [0] from rfl])
  exact ⟨h.1 0 one_pos 0 one_pos, h.2.1⟩

/-- C8: on an all-zero input matrix, with valid weights (positive maximum),
any rank at least one, at least one EM iteration allowed, a nonnegative
tolerance, and the external decomposition meeting its contract on the zero
matrix (zero singular values), `wlra` converges in the first iteration and
returns the all-zero matrix. -/
theorem wlra_zero_input_returns_zero (svd : Svd) (n p rank max_iters : ℕ)
    (w : Mat) (atol : ℝ) (hrank : 0 < rank) (hiters : 0 < max_iters)
    (hatol : 0 ≤ atol) (hmax : 0 < matMax n p w)
    (hsvd : ∀ j, (svd (fun _ _ => 0) rank).d j = 0) :
    wlra svd n p (fun _ _ => 0) w rank max_iters atol = .ok (fun _ _ => 0) := by
  obtain ⟨m, rfl⟩ : ∃ m, max_iters = m + 1 :=
    ⟨max_iters - 1, (Nat.succ_pred_eq_of_pos hiters).symm⟩
  have hlra : lra svd (fun i j => wlra_wnorm n p w i j * (fun _ _ => (0:ℝ)) i j
      + (1 - wlra_wnorm n p w i j) * (fun _ _ => (0:ℝ)) i j) rank = fun _ _ => (0:ℝ) := by
    have hin : (fun i j => wlra_wnorm n p w i j * (fun _ _ => (0:ℝ)) i j
        + (1 - wlra_wnorm n p w i j) * (fun _ _ => (0:ℝ)) i j) = fun _ _ => (0:ℝ) := by
      funext i j
      simp
    rw [hin]
    funext i k
    rw [lra_apply]
    refine Finset.sum_eq_zero fun j _ => ?_
    rw [hsvd j, mul_zero, zero_mul]
  have hupd : wlra_update n p (fun _ _ => (0:ℝ)) (wlra_wnorm n p w) (fun _ _ => 0) = 0 := by
    simp [wlra_update, matMean]
  have hobj : (matMean n p fun i j => wlra_wnorm n p w i j * ((fun _ _ => (0:ℝ)) i j) ^ 2) = 0 := by
    simp [matMean]
  have hclose : isclose 0 0 atol := by
    simpa [isclose] using hatol
  show wlra_go svd n p (fun _ _ => 0) (wlra_wnorm n p w) rank atol (m + 1)
      (fun _ _ => 0) (matMean n p fun i j => wlra_wnorm n p w i j * ((fun _ _ => (0:ℝ)) i j) ^ 2) = _
  rw [wlra_go_succ, hlra, hobj]
  simp only [hupd, lt_irrefl, if_false, if_pos hclose]

/-- C8 witness: a concrete `1 × 1` zero matrix with weight `1`, rank `1`,
one iteration allowed, tolerance `1/1000`, under the trivial collaborator. -/
theorem wlra_zero_input_returns_zero_witness :
    wlra trivialSvd 1 1 (fun _ _ => 0) (fun _ _ => 1) 1 1 (1/1000) = .ok (fun _ _ => 0) :=
  wlra_zero_input_returns_zero trivialSvd 1 1 1 1 (fun _ _ => 1) (1/1000)
    one_pos one_pos (by norm_num)
    (by norm_num [matMax, matEntries, show List.range 1 = [0] from rfl]) (fun j => rfl)

/-- C1 counterexample: at `y = 0`, `eta = 101 > 100` the code's `pois_llik`
(plain `np.exp`) differs from the spec's safe-exponential version, which
would substitute `101` for `exp(101)`. -/
theorem pois_llik_not_clamped_at_101 : pois_llik 0 101 ≠ pois_llik_spec 0 101 := by
  have h := Real.add_one_le_exp (101 : ℝ)
  simp only [pois_llik, pois_llik_spec, safe_exp_spec,
    if_pos (by norm_num : (100:ℝ) < 101)]
  intro hc
  nlinarith

/-- C1 amended: `pois_llik` evaluates the exponential unclamped — at every
`eta > 100` it differs from the spec's safe-exponential likelihood — and the
rate `lambda` in the outer loop of `pois_lra` is likewise the plain
entrywise exponential of `Eta`. -/
theorem pois_llik_and_lam_use_plain_exp :
    (∀ y eta : ℝ, 100 < eta → pois_llik y eta ≠ pois_llik_spec y eta)
    ∧ (∀ (eta : Mat) (i j : ℕ), pois_lra_lam eta i j = Real.exp (eta i j))
    ∧ (∀ y eta : ℝ, pois_llik y eta = y * eta - Real.exp eta - lngamma (y + 1)) := by
  refine ⟨?_, fun _ _ _ => rfl, fun _ _ => rfl⟩
  intro y eta heta
  have h := Real.add_one_le_exp eta
  simp only [pois_llik, pois_llik_spec, safe_exp_spec, if_pos heta]
  intro hc
  nlinarith

/-- C1 witness: the amended statement at `y = 0`, `eta = 101`. -/
theorem pois_llik_and_lam_use_plain_exp_witness :
    pois_llik 0 101 ≠ pois_llik_spec 0 101 ∧ pois_lra_lam (fun _ _ => 0) 0 0 = Real.exp 0 :=
  ⟨pois_llik_and_lam_use_plain_exp.1 0 101 (by norm_num),
    pois_llik_and_lam_use_plain_exp.2.1 (fun _ _ => 0) 0 0⟩

/-- C2 counterexample: on the `1 × 1` all-ones matrix the default initial
estimate of `pois_lra` is the constant `mean(X) = 1`, not
`log(mean(X)) = 0` as the claim states. -/
theorem pois_lra_init_not_log_mean :
    pois_lra_init 1 1 (fun _ _ => 1) 0 0 ≠ pois_lra_init_spec 1 1 (fun _ _ => 1) 0 0 := by
  have hmean : matMean 1 1 (fun _ _ => (1:ℝ)) = 1 := by
    simp [matMean]
  simp only [pois_lra_init, pois_lra_init_spec, hmean, Real.log_one]
  norm_num

/-- C2 amended: when `pois_lra` is called without a warm start, the initial
estimate is the constant matrix whose every entry is `mean(X)` itself (no
logarithm), and the outer loop starts from that matrix and its mean
log-likelihood. -/
theorem pois_lra_default_init_is_constant_mean :
    (∀ (n p : ℕ) (x : Mat) (i j : ℕ), pois_lra_init n p x i j = matMean n p x)
    ∧ ∀ (svd : Svd) (n p : ℕ) (x : Mat) (rank max_outer_iters max_iters : ℕ)
        (atol : ℝ),
        pois_lra svd n p x rank none max_outer_iters max_iters atol
          = pois_lra_go svd n p x rank max_iters atol max_outer_iters
              (pois_lra_init n p x)
              (pois_llik_mean n p x (pois_lra_init n p x)) :=
  ⟨fun _ _ _ _ _ => rfl, fun _ _ _ _ _ _ _ _ => rfl⟩

/-- C7: every call to `PoissonFA.forward` raises `NameError('sp')`, because
`pois.py` binds only `np` and `torch` at module level while the body of
`forward` references the global `sp`; consequently `PoissonFA.fit`, which
evaluates `forward` in its first epoch, raises the same error whenever at
least one epoch runs. -/
theorem poisson_fa_forward_raises_name_error :
    (∀ (n k p : ℕ) (l f x : Mat),
        PoissonFA.forward n k p l f x = .error (.nameError "sp"))
    ∧ ∀ (step : Mat × Mat → Mat × Mat) (n k p : ℕ) (l f x : Mat)
        (max_epochs : ℕ) (atol : ℝ), 0 < max_epochs →
        PoissonFA.fit step n k p l f x max_epochs atol
          = .error (.nameError "sp") := by
  have hfwd : ∀ (n k p : ℕ) (l f x : Mat),
      PoissonFA.forward n k p l f x = .error (.nameError "sp") := by
    intro n k p l f x
    rfl
  refine ⟨hfwd, ?_⟩
  intro step n k p l f x max_epochs atol hpos
  obtain ⟨m, rfl⟩ : ∃ m, max_epochs = m + 1 :=
    ⟨max_epochs - 1, (Nat.succ_pred_eq_of_pos hpos).symm⟩
  show PoissonFA.fit_go step n k p x atol (m + 1) (l, f) none = _
  rw [PoissonFA.fit_go, hfwd]

/-- C7 witness: the concrete `1 × 1` zero input with the identity optimizer
step and one epoch. -/
theorem poisson_fa_forward_raises_name_error_witness :
    PoissonFA.fit (fun lf => lf) 1 1 1 (fun _ _ => 0) (fun _ _ => 0) (fun _ _ => 0)
        1 (1/1000) = .error (.nameError "sp") :=
  poisson_fa_forward_raises_name_error.2 (fun lf => lf) 1 1 1
    (fun _ _ => 0) (fun _ _ => 0) (fun _ _ => 0) 1 (1/1000) one_pos

/-- C6: the gradient path's forward evaluation is broken where the claim
says it computes the negative mean Poisson log-likelihood: on the `1 × 1`
input `x = [[3]]`, `L = F = [[1]]`, the call raises `NameError('sp')`, and
the value its return expression denotes (reading `sp.gammaln` as log-gamma)
differs from the negative mean Poisson log-likelihood by `-2 * lngamma 4`:
the code adds the `gammaln(x + 1)` term where `pois_llik` subtracts it. -/
theorem poisson_fa_forward_sign_bug :
    PoissonFA.forward 1 1 1 (fun _ _ => 1) (fun _ _ => 1) (fun _ _ => 3)
        = .error (.nameError "sp")
    ∧ PoissonFA.forward_expr 1 1 1 (fun _ _ => 1) (fun _ _ => 1) (fun _ _ => 3)
        - negMeanPoisLlik 1 1 (fun _ _ => 3)
            (PoissonFA.log_lam 1 (fun _ _ => 1) (fun _ _ => 1))
        = -2 * lngamma 4
    ∧ lngamma 4 ≠ 0 := by
  refine ⟨rfl, ?_, ?_⟩
  · have hll : PoissonFA.log_lam 1 (fun _ _ => (1:ℝ)) (fun _ _ => 1) = fun _ _ => 1 := by
      funext i j
      simp [PoissonFA.log_lam]
    rw [hll]
    simp only [PoissonFA.forward_expr, negMeanPoisLlik, pois_llik, matMean,
      Finset.sum_range_one, hll]
    norm_num
    ring
  · have h4 : (4:ℝ) = (3:ℕ) + 1 := by norm_num
    have hg : Real.Gamma 4 = 6 := by
      rw [h4, Real.Gamma_nat_eq_factorial]
      norm_num [Nat.factorial]
    have : lngamma 4 = Real.log 6 := by rw [lngamma, hg]
    rw [this]
    exact ne_of_gt (Real.log_pos (by norm_num))

/-- C5: when every inner `wlra` call returns normally, `pois_lra` never
raises: the outer loop always produces a result, exhausting the iteration
budget returns the current `Eta` rather than raising, and the top-level
entry point returns a matrix for any warm start and outer budget. -/
theorem pois_lra_never_raises_on_nonconvergence (svd : Svd) (n p : ℕ)
    (x : Mat) (rank max_iters : ℕ) (atol : ℝ)
    (hok : ∀ t w : Mat, ∃ z, wlra svd n p t w rank max_iters atol = .ok z) :
    (∀ (fuel : ℕ) (eta : Mat) (obj : ℝ),
        ∃ m, pois_lra_go svd n p x rank max_iters atol fuel eta obj = .ok m)
    ∧ (∀ (eta : Mat) (obj : ℝ),
        pois_lra_go svd n p x rank max_iters atol 0 eta obj = .ok eta)
    ∧ ∀ (init : Option Mat) (max_outer_iters : ℕ),
        ∃ m, pois_lra svd n p x rank init max_outer_iters max_iters atol
            = .ok m := by
  have hgo : ∀ (fuel : ℕ) (eta : Mat) (obj : ℝ),
      ∃ m, pois_lra_go svd n p x rank max_iters atol fuel eta obj = .ok m := by
    intro fuel
    induction fuel with
    | zero => exact fun eta obj => ⟨eta, rfl⟩
    | succ fuel ih =>
      intro eta obj
      obtain ⟨z, hz⟩ := hok (pois_lra_target x eta) (pois_lra_lam eta)
      rw [pois_lra_go_succ, hz]
      show ∃ m, (if pois_llik_mean n p x z < obj then
          pois_lra_go svd n p x rank max_iters atol fuel eta obj
        else if isclose (pois_llik_mean n p x z) obj atol then Except.ok z
        else pois_lra_go svd n p x rank max_iters atol fuel z
            (pois_llik_mean n p x z)) = .ok m
      by_cases h1 : pois_llik_mean n p x z < obj
      · simpa only [if_pos h1] using ih eta obj
      · by_cases h2 : isclose (pois_llik_mean n p x z) obj atol
        · exact ⟨z, by simp only [if_neg h1, if_pos h2]⟩
        · simpa only [if_neg h1, if_neg h2] using ih z (pois_llik_mean n p x z)
  refine ⟨hgo, fun eta obj => rfl, ?_⟩
  intro init mo
  cases init with
  | none => exact hgo mo _ _
  | some e => exact hgo mo _ _

/-- C5 witness: under the trivial collaborator every inner `wlra` call on a
`1 × 1` problem converges in its first iteration, and `pois_lra` on the zero
matrix with three outer iterations returns a matrix. -/
theorem pois_lra_never_raises_on_nonconvergence_witness :
    ∃ m, pois_lra trivialSvd 1 1 (fun _ _ => 0) 1 none 3 1 (1/1000) = .ok m := by
  refine (pois_lra_never_raises_on_nonconvergence trivialSvd 1 1 (fun _ _ => 0)
    1 1 (1/1000) ?_).2.2 none 3
  intro t w
  refine ⟨fun _ _ => 0, ?_⟩
  show wlra_go trivialSvd 1 1 t (wlra_wnorm 1 1 w) 1 (1/1000) 1 (fun _ _ => 0)
      (matMean 1 1 fun i j => wlra_wnorm 1 1 w i j * t i j ^ 2) = _
  rw [wlra_go_succ]
  have hz1 : lra trivialSvd (fun i j => wlra_wnorm 1 1 w i j * t i j
      + (1 - wlra_wnorm 1 1 w i j) * (fun _ _ => (0:ℝ)) i j) 1
      = fun _ _ => (0:ℝ) := by
    funext i k
    rw [lra_apply]
    simp [trivialSvd]
  have hupd : wlra_update 1 1 t (wlra_wnorm 1 1 w) (fun _ _ => (0:ℝ))
      = matMean 1 1 fun i j => wlra_wnorm 1 1 w i j * t i j ^ 2 := by
    simp [wlra_update, sub_zero]
  have hclose : isclose (matMean 1 1 fun i j => wlra_wnorm 1 1 w i j * t i j ^ 2)
      (matMean 1 1 fun i j => wlra_wnorm 1 1 w i j * t i j ^ 2) (1/1000) := by
    simp only [isclose, sub_self, abs_zero]
    positivity
  simp only [hz1, hupd, lt_irrefl, if_false, if_pos hclose]

/-- C3 amended: in an outer iteration of `pois_lra` whose inner solve
returns `Eta'` with a new objective not within tolerance of the running one,
a likelihood decrease (`update < objective`) is tolerated — no error — but
the state is NOT advanced: the iteration keeps `Eta` and the objective and
discards `Eta'` (the code's `pass` branch); only when `update` does not
decrease is the state advanced to `(Eta', update)`. -/
theorem pois_lra_outer_step_characterization (svd : Svd) (n p : ℕ) (x : Mat)
    (rank max_iters : ℕ) (atol : ℝ) (fuel : ℕ) (eta : Mat) (obj : ℝ)
    (eta1 : Mat)
    (hok : wlra svd n p (pois_lra_target x eta) (pois_lra_lam eta) rank
        max_iters atol = .ok eta1)
    (hfar : ¬ isclose (pois_llik_mean n p x eta1) obj atol) :
    pois_lra_go svd n p x rank max_iters atol (fuel + 1) eta obj
      = if pois_llik_mean n p x eta1 < obj
        then pois_lra_go svd n p x rank max_iters atol fuel eta obj
        else pois_lra_go svd n p x rank max_iters atol fuel eta1
            (pois_llik_mean n p x eta1) := by
  rw [pois_lra_go_succ, hok]
  show (if pois_llik_mean n p x eta1 < obj then
      pois_lra_go svd n p x rank max_iters atol fuel eta obj
    else if isclose (pois_llik_mean n p x eta1) obj atol then Except.ok eta1
    else pois_lra_go svd n p x rank max_iters atol fuel eta1
        (pois_llik_mean n p x eta1)) = _
  by_cases h1 : pois_llik_mean n p x eta1 < obj
  · simp only [if_pos h1]
  · simp only [if_neg h1, if_neg hfar]

/-- C3 amended witness: a concrete `1 × 1` iteration under the trivial
collaborator at running objective `5`, where the inner solve returns the
zero matrix with mean log-likelihood `-1`, far from tolerance. -/
theorem pois_lra_outer_step_characterization_witness :
    (wlra trivialSvd 1 1 (pois_lra_target (fun _ _ => 0) (fun _ _ => 0))
        (pois_lra_lam (fun _ _ => 0)) 1 1 (1/1000) = .ok (fun _ _ => 0))
    ∧ ¬ isclose (pois_llik_mean 1 1 (fun _ _ => 0) (fun _ _ => 0)) 5 (1/1000)
    ∧ pois_lra_go trivialSvd 1 1 (fun _ _ => 0) 1 1 (1/1000) 1 (fun _ _ => 0) 5
      = if pois_llik_mean 1 1 (fun _ _ => 0) (fun _ _ => 0) < 5
        then pois_lra_go trivialSvd 1 1 (fun _ _ => 0) 1 1 (1/1000) 0
            (fun _ _ => 0) 5
        else pois_lra_go trivialSvd 1 1 (fun _ _ => 0) 1 1 (1/1000) 0
            (fun _ _ => 0)
            (pois_llik_mean 1 1 (fun _ _ => 0) (fun _ _ => 0)) := by
  have hmean : pois_llik_mean 1 1 (fun _ _ => (0:ℝ)) (fun _ _ => (0:ℝ)) = -1 := by
    simp [pois_llik_mean, matMean, pois_llik, lngamma, Real.Gamma_one]
  have hok : wlra trivialSvd 1 1 (pois_lra_target (fun _ _ => 0) (fun _ _ => 0))
      (pois_lra_lam (fun _ _ => 0)) 1 1 (1/1000) = .ok (fun _ _ => 0) := by
    show wlra_go trivialSvd 1 1 (pois_lra_target (fun _ _ => 0) (fun _ _ => 0))
        (wlra_wnorm 1 1 (pois_lra_lam (fun _ _ => 0))) 1 (1/1000) 1 (fun _ _ => 0)
        (matMean 1 1 fun i j => wlra_wnorm 1 1 (pois_lra_lam (fun _ _ => 0)) i j
          * (pois_lra_target (fun _ _ => 0) (fun _ _ => 0)) i j ^ 2) = _
    rw [wlra_go_succ]
    have hz1 : lra trivialSvd (fun i j =>
        wlra_wnorm 1 1 (pois_lra_lam (fun _ _ => 0)) i j
          * (pois_lra_target (fun _ _ => 0) (fun _ _ => 0)) i j
        + (1 - wlra_wnorm 1 1 (pois_lra_lam (fun _ _ => 0)) i j)
          * (fun _ _ => (0:ℝ)) i j) 1 = fun _ _ => (0:ℝ) := by
      funext i k
      rw [lra_apply]
      simp [trivialSvd]
    have hupd : wlra_update 1 1 (pois_lra_target (fun _ _ => 0) (fun _ _ => 0))
        (wlra_wnorm 1 1 (pois_lra_lam (fun _ _ => 0))) (fun _ _ => (0:ℝ))
        = matMean 1 1 fun i j => wlra_wnorm 1 1 (pois_lra_lam (fun _ _ => 0)) i j
          * (pois_lra_target (fun _ _ => 0) (fun _ _ => 0)) i j ^ 2 := by
      simp [wlra_update, sub_zero]
    have hclose : isclose (matMean 1 1 fun i j =>
        wlra_wnorm 1 1 (pois_lra_lam (fun _ _ => 0)) i j
          * (pois_lra_target (fun _ _ => 0) (fun _ _ => 0)) i j ^ 2)
        (matMean 1 1 fun i j => wlra_wnorm 1 1 (pois_lra_lam (fun _ _ => 0)) i j
          * (pois_lra_target (fun _ _ => 0) (fun _ _ => 0)) i j ^ 2) (1/1000) := by
      simp only [isclose, sub_self, abs_zero]
      positivity
    simp only [hz1, hupd, lt_irrefl, if_false, if_pos hclose]
  have hfar : ¬ isclose (pois_llik_mean 1 1 (fun _ _ => 0) (fun _ _ => 0)) 5
      (1/1000) := by
    rw [hmean, isclose]
    rw [show |(-1:ℝ) - 5| = 6 by rw [abs_of_nonpos] <;> norm_num]
    norm_num
  exact ⟨hok, hfar,
    pois_lra_outer_step_characterization trivialSvd 1 1 (fun _ _ => 0) 1 1
      (1/1000) 0 (fun _ _ => 0) 5 (fun _ _ => 0) hok hfar⟩

set_option maxHeartbeats 1000000 in
/-- C3 counterexample: concrete outer iteration of `pois_lra` on the `1 × 1`
input `x = [[1]]` at `Eta = [[-2]]` under an exact rank-1 collaborator. The
inner solve returns `Eta' = [[exp 2 - 3]]`, whose mean log-likelihood is a
decrease far outside tolerance, and the iteration does NOT advance the state
to `(Eta', update)`: it keeps `Eta = [[-2]]` (the code's `pass`), refuting
the claim that `Eta'` still becomes the current `Eta`. -/
theorem pois_lra_decrease_discards_update :
    (wlra svd11 1 1 (pois_lra_target (fun _ _ => 1) (fun _ _ => -2))
        (pois_lra_lam (fun _ _ => -2)) 1 2 (1/1000)
      = .ok (fun _ _ => Real.exp 2 - 3))
    ∧ ¬ isclose
        (pois_llik_mean 1 1 (fun _ _ => 1) (fun _ _ => Real.exp 2 - 3))
        (pois_llik_mean 1 1 (fun _ _ => 1) (fun _ _ => -2)) (1/1000)
    ∧ pois_lra_go svd11 1 1 (fun _ _ => 1) 1 2 (1/1000) 1 (fun _ _ => -2)
          (pois_llik_mean 1 1 (fun _ _ => 1) (fun _ _ => -2))
      ≠ pois_lra_go svd11 1 1 (fun _ _ => 1) 1 2 (1/1000) 0
          (fun _ _ => Real.exp 2 - 3)
          (pois_llik_mean 1 1 (fun _ _ => 1) (fun _ _ => Real.exp 2 - 3)) := by
  have he2 : Real.exp 2 = Real.exp 1 * Real.exp 1 := by
    rw [← Real.exp_add]
    norm_num
  have he2gt : (7389/1000 : ℝ) < Real.exp 2 := by
    nlinarith [Real.exp_one_gt_d9, Real.exp_pos 1]
  have he2lt : Real.exp 2 < (739/100 : ℝ) := by
    nlinarith [Real.exp_one_lt_d9, Real.exp_pos 1]
  have hen2pos : (0:ℝ) < Real.exp (-2) := Real.exp_pos _
  have hprod : Real.exp (-2:ℝ) * Real.exp 2 = 1 := by
    rw [← Real.exp_add]
    norm_num
  have hen2lt : Real.exp (-2:ℝ) < 1/7 := by
    nlinarith [hprod, hen2pos, he2gt]
  have hene2 : Real.exp (-2:ℝ) = (Real.exp 2)⁻¹ := Real.exp_neg 2
  have hmaxlam : matMax 1 1 (pois_lra_lam (fun _ _ => (-2:ℝ))) = Real.exp (-2) := by
    norm_num [matMax, matEntries, pois_lra_lam, show List.range 1 = [0] from rfl]
  have hwn : wlra_wnorm 1 1 (pois_lra_lam (fun _ _ => (-2:ℝ))) = fun _ _ => (1:ℝ) := by
    funext i j
    show pois_lra_lam (fun _ _ => (-2:ℝ)) i j
        / matMax 1 1 (pois_lra_lam (fun _ _ => (-2:ℝ))) = 1
    rw [hmaxlam]
    show Real.exp (-2) / Real.exp (-2) = 1
    exact div_self (ne_of_gt hen2pos)
  have htarget : pois_lra_target (fun _ _ => (1:ℝ)) (fun _ _ => (-2:ℝ))
      = fun _ _ => Real.exp 2 - 3 := by
    funext i j
    show (-2:ℝ) + 1 / Real.exp (-2) - 1 = Real.exp 2 - 3
    rw [hene2, one_div, inv_inv]
    ring
  have hobj0 : (matMean 1 1 fun i j =>
      wlra_wnorm 1 1 (pois_lra_lam (fun _ _ => (-2:ℝ))) i j
        * (pois_lra_target (fun _ _ => (1:ℝ)) (fun _ _ => (-2:ℝ))) i j ^ 2)
      = (Real.exp 2 - 3) ^ 2 := by
    rw [hwn, htarget]
    simp [matMean]
  have hclb : (4:ℝ) < Real.exp 2 - 3 := by linarith
  have hupd1 : wlra_update 1 1 (fun _ _ => Real.exp 2 - 3) (fun _ _ => 1)
      (fun _ _ => Real.exp 2 - 3) = 0 := by
    simp [wlra_update, matMean]
  have hwlra : wlra svd11 1 1 (pois_lra_target (fun _ _ => 1) (fun _ _ => -2))
      (pois_lra_lam (fun _ _ => -2)) 1 2 (1/1000)
      = .ok (fun _ _ => Real.exp 2 - 3) := by
    show wlra_go svd11 1 1 (pois_lra_target (fun _ _ => 1) (fun _ _ => -2))
        (wlra_wnorm 1 1 (pois_lra_lam (fun _ _ => -2))) 1 (1/1000) 2 (fun _ _ => 0)
        (matMean 1 1 fun i j => wlra_wnorm 1 1 (pois_lra_lam (fun _ _ => -2)) i j
          * (pois_lra_target (fun _ _ => 1) (fun _ _ => -2)) i j ^ 2) = _
    rw [hobj0, hwn, htarget, wlra_go_succ]
    have hz1a : lra svd11 (fun i j => (fun _ _ => (1:ℝ)) i j
        * (fun _ _ => Real.exp 2 - 3) i j
        + (1 - (fun _ _ => (1:ℝ)) i j) * (fun _ _ => (0:ℝ)) i j) 1
        = fun _ _ => Real.exp 2 - 3 := by
      funext i k
      rw [lra_apply]
      simp [svd11]
    have hnlt1 : ¬ ((Real.exp 2 - 3) ^ 2 < (0:ℝ)) := not_lt.mpr (sq_nonneg _)
    have hnc1 : ¬ isclose 0 ((Real.exp 2 - 3) ^ 2) (1/1000) := by
      rw [isclose]
      rw [abs_of_nonpos (by nlinarith [sq_nonneg (Real.exp 2 - 3)] :
        (0:ℝ) - (Real.exp 2 - 3) ^ 2 ≤ 0)]
      rw [abs_of_nonneg (sq_nonneg _)]
      intro h
      nlinarith [hclb, h]
    simp only [hz1a, hupd1, if_neg hnlt1, if_neg hnc1]
    rw [wlra_go_succ]
    have hz1b : lra svd11 (fun i j => (fun _ _ => (1:ℝ)) i j
        * (fun _ _ => Real.exp 2 - 3) i j
        + (1 - (fun _ _ => (1:ℝ)) i j) * (fun _ _ => Real.exp 2 - 3) i j) 1
        = fun _ _ => Real.exp 2 - 3 := by
      funext i k
      rw [lra_apply]
      simp [svd11]
    have hc00 : isclose 0 0 (1/1000) := by
      simp [isclose]
    simp only [hz1b, hupd1, lt_irrefl, if_false, if_pos hc00]
  have h2c : ((1:ℝ) + 1) = 2 := by norm_num
  have hu : pois_llik_mean 1 1 (fun _ _ => 1) (fun _ _ => Real.exp 2 - 3)
      = (Real.exp 2 - 3) - Real.exp (Real.exp 2 - 3) := by
    simp [pois_llik_mean, matMean, pois_llik, lngamma, h2c, Real.Gamma_two]
  have hob : pois_llik_mean 1 1 (fun _ _ => 1) (fun _ _ => -2)
      = -2 - Real.exp (-2) := by
    simp [pois_llik_mean, matMean, pois_llik, lngamma, h2c, Real.Gamma_two]
  have hhalf := Real.add_one_le_exp ((Real.exp 2 - 3)/2)
  have hsq : Real.exp (Real.exp 2 - 3)
      = Real.exp ((Real.exp 2 - 3)/2) * Real.exp ((Real.exp 2 - 3)/2) := by
    rw [← Real.exp_add]
    ring_nf
  have hexpclb : ((Real.exp 2 - 3)/2 + 1) ^ 2 ≤ Real.exp (Real.exp 2 - 3) := by
    rw [hsq]
    have h0 : (0:ℝ) ≤ (Real.exp 2 - 3)/2 + 1 := by linarith
    nlinarith [hhalf, h0]
  have hdec : pois_llik_mean 1 1 (fun _ _ => 1) (fun _ _ => Real.exp 2 - 3)
      < pois_llik_mean 1 1 (fun _ _ => 1) (fun _ _ => -2) := by
    rw [hu, hob]
    nlinarith [hexpclb, hclb, he2lt, hen2lt, hen2pos]
  have hfar : ¬ isclose
      (pois_llik_mean 1 1 (fun _ _ => 1) (fun _ _ => Real.exp 2 - 3))
      (pois_llik_mean 1 1 (fun _ _ => 1) (fun _ _ => -2)) (1/1000) := by
    rw [hu, hob, isclose]
    intro h
    have habs2 : |(-2:ℝ) - Real.exp (-2)| ≤ 3 := by
      rw [abs_of_nonpos (by nlinarith : (-2:ℝ) - Real.exp (-2) ≤ 0)]
      nlinarith
    have hd := (abs_le.mp h).1
    nlinarith [hexpclb, hclb, hen2lt, hen2pos, habs2, hd]
  refine ⟨hwlra, hfar, ?_⟩
  have hL : pois_lra_go svd11 1 1 (fun _ _ => 1) 1 2 (1/1000) 1 (fun _ _ => -2)
      (pois_llik_mean 1 1 (fun _ _ => 1) (fun _ _ => -2))
      = .ok (fun _ _ => -2) := by
    rw [pois_lra_go_succ, hwlra]
    show (if pois_llik_mean 1 1 (fun _ _ => 1) (fun _ _ => Real.exp 2 - 3)
        < pois_llik_mean 1 1 (fun _ _ => 1) (fun _ _ => -2) then
        pois_lra_go svd11 1 1 (fun _ _ => 1) 1 2 (1/1000) 0 (fun _ _ => -2)
          (pois_llik_mean 1 1 (fun _ _ => 1) (fun _ _ => -2))
      else if isclose
          (pois_llik_mean 1 1 (fun _ _ => 1) (fun _ _ => Real.exp 2 - 3))
          (pois_llik_mean 1 1 (fun _ _ => 1) (fun _ _ => -2)) (1/1000) then
        Except.ok (fun _ _ => Real.exp 2 - 3)
      else pois_lra_go svd11 1 1 (fun _ _ => 1) 1 2 (1/1000) 0
          (fun _ _ => Real.exp 2 - 3)
          (pois_llik_mean 1 1 (fun _ _ => 1) (fun _ _ => Real.exp 2 - 3))) = _
    rw [if_pos hdec]
    rfl
  have hR : pois_lra_go svd11 1 1 (fun _ _ => 1) 1 2 (1/1000) 0
      (fun _ _ => Real.exp 2 - 3)
      (pois_llik_mean 1 1 (fun _ _ => 1) (fun _ _ => Real.exp 2 - 3))
      = .ok (fun _ _ => Real.exp 2 - 3) := rfl
  rw [hL, hR]
  intro hcontra
  have h00 := congrFun (congrFun (Except.ok.inj hcontra) 0) 0
  nlinarith [he2gt, h00]
